import Mathlib

/-!
Verification development for the `wordlist_sort` repository.

The repository's only source file is `src/conanfile.py`, a Conan build manifest
for a tool called `word_sorter`.  The first part of this file embeds that
manifest: the recipe class `WordSorterConan`, its attributes, and its four
methods, each method body being a list of statements interpreted over an
explicit recipe-evaluation state.  The literal text of the manifest is also
embedded so that facts about the file itself (line counts) can be stated.

The manifest pins a block-compression library and a CLI-parsing library but
ships no sorting code; the specification describes the implied core, a
memory-bounded external sorting engine (batching, per-batch chunk sort,
spill segments, k-way merge).  The second part of this file models that
engine from the specification and proves the ordering, budget-independence,
error-atomicity, and empty-input properties claimed for it.
-/

namespace WordlistSort

/-- Recipe-evaluation state: everything a `ConanFile` method of
`src/conanfile.py` can record on `self` (declared requirements, declared tool
requirements, the build folder) together with the CMake steps it invokes and
any word data it would emit to an output (the manifest emits none). -/
structure ConanFileState where
  requires_list : List String := []
  tool_requires_list : List String := []
  folders_build : Option String := none
  cmake_steps : List String := []
  output_words : List String := []
  deriving DecidableEq, Repr

/-- Statement forms occurring in the method bodies of `WordSorterConan`
(src/conanfile.py lines 10-24): dependency declarations, the folder
assignment, and the CMake invocations. -/
inductive PyStmt where
  | callRequires (ref : String)
  | callToolRequires (ref : String)
  | assignFoldersBuild (dir : String)
  | constructCMake
  | callCMakeConfigure
  | callCMakeBuild
  deriving DecidableEq, Repr

/-- Effect of `self.requires(ref)` (Conan's dependency declaration). -/
def requires (st : ConanFileState) (ref : String) : ConanFileState :=
  { st with requires_list := st.requires_list ++ [ref] }

/-- Effect of `self.tool_requires(ref)` (Conan's build-tool declaration). -/
def tool_requires (st : ConanFileState) (ref : String) : ConanFileState :=
  { st with tool_requires_list := st.tool_requires_list ++ [ref] }

/-- Interpretation of one manifest statement on the recipe state. -/
def execStmt (st : ConanFileState) : PyStmt → ConanFileState
  | .callRequires ref => requires st ref
  | .callToolRequires ref => tool_requires st ref
  | .assignFoldersBuild dir => { st with folders_build := some dir }
  | .constructCMake => { st with cmake_steps := st.cmake_steps ++ ["CMake(self)"] }
  | .callCMakeConfigure => { st with cmake_steps := st.cmake_steps ++ ["configure"] }
  | .callCMakeBuild => { st with cmake_steps := st.cmake_steps ++ ["build"] }

/-- Interpretation of a method body (statement list) on the recipe state. -/
def runBody (body : List PyStmt) (st : ConanFileState) : ConanFileState :=
  body.foldl execStmt st

namespace WordSorterConan

/-- Class attribute `name` (src/conanfile.py line 5). -/
def name : String := "word_sorter"

/-- Class attribute `version` (src/conanfile.py line 6). -/
def version : String := "1.0"

/-- Class attribute `settings` (src/conanfile.py line 7). -/
def settings : List String := ["os", "compiler", "build_type", "arch"]

/-- Class attribute `generators` (src/conanfile.py line 8). -/
def generators : List String := ["CMakeDeps", "CMakeToolchain"]

/-- Body of `requirements` (src/conanfile.py lines 10-12). -/
def requirementsBody : List PyStmt :=
  [.callRequires "lz4/1.9.4", .callRequires "cli11/2.4.2"]

/-- Body of `build_requirements` (src/conanfile.py lines 14-16). -/
def build_requirementsBody : List PyStmt :=
  [.callToolRequires "cmake/3.25.3", .callToolRequires "ninja/1.11.1"]

/-- Body of `layout` (src/conanfile.py lines 18-19). -/
def layoutBody : List PyStmt := [.assignFoldersBuild "build"]

/-- Body of `build` (src/conanfile.py lines 21-24). -/
def buildBody : List PyStmt := [.constructCMake, .callCMakeConfigure, .callCMakeBuild]

/-- The `requirements` method: runs its body on the recipe state. -/
def requirements (st : ConanFileState) : ConanFileState := runBody requirementsBody st

/-- The `build_requirements` method: runs its body on the recipe state. -/
def build_requirements (st : ConanFileState) : ConanFileState :=
  runBody build_requirementsBody st

/-- The `layout` method: runs its body on the recipe state. -/
def layout (st : ConanFileState) : ConanFileState := runBody layoutBody st

/-- The `build` method: runs its body on the recipe state. -/
def build (st : ConanFileState) : ConanFileState := runBody buildBody st

/-- All methods defined by the `WordSorterConan` class, in source order,
each with its body. -/
def methods : List (String × List PyStmt) :=
  [("requirements", requirementsBody), ("build_requirements", build_requirementsBody),
   ("layout", layoutBody), ("build", buildBody)]

end WordSorterConan

/-- Judgment, per statement form of src/conanfile.py, of whether the statement
reads, sorts, merges, compresses, or emits word data.  Every statement in the
manifest is a dependency declaration, a folder assignment, or a CMake build
invocation; none of them touches word data. -/
def touchesWordData : PyStmt → Bool
  | .callRequires _ => false
  | .callToolRequires _ => false
  | .assignFoldersBuild _ => false
  | .constructCMake => false
  | .callCMakeConfigure => false
  | .callCMakeBuild => false

/-- The repository's source files. -/
def sourceFiles : List String := ["conanfile.py"]

/-- The classes defined in src/conanfile.py. -/
def conanfileClasses : List String := ["WordSorterConan"]

/-- The requirements declared by evaluating `requirements` on a fresh state. -/
def declaredRequirements : List String :=
  (WordSorterConan.requirements {}).requires_list

/-- The tool requirements declared by evaluating `build_requirements` on a
fresh state. -/
def declaredToolRequirements : List String :=
  (WordSorterConan.build_requirements {}).tool_requires_list

/-- Modelled from the spec: the repository carries no statement of what the
dependency references are; the spec identifies one of the two runtime
dependencies as "a compression library".  A reference to the `lz4` Conan
package (any version) is a general-purpose block-compression library. -/
def isCompressionLibraryRef (ref : String) : Bool := ref.toList.take 4 == ['l', 'z', '4', '/']

/-- Modelled from the spec: the spec identifies the other runtime dependency
as "a command-line-argument-parsing library".  A reference to the `cli11`
Conan package (any version) is a CLI-argument-parsing library. -/
def isCliParsingLibraryRef (ref : String) : Bool :=
  ref.toList.take 6 == ['c', 'l', 'i', '1', '1', '/']

/-- The text of src/conanfile.py, line by line.  The file's last line is not
terminated by a newline, so the file is these 24 lines joined by 23 newline
characters. -/
def conanfileLines : List String :=
  [ "from conan import ConanFile",
    "from conan.tools.cmake import CMake, CMakeToolchain, CMakeDeps",
    "",
    "class WordSorterConan(ConanFile):",
    "    name = \"word_sorter\"",
    "    version = \"1.0\"",
    "    settings = \"os\", \"compiler\", \"build_type\", \"arch\"",
    "    generators = \"CMakeDeps\", \"CMakeToolchain\"",
    "",
    "    def requirements(self):",
    "        self.requires(\"lz4/1.9.4\")",
    "        self.requires(\"cli11/2.4.2\")",
    "",
    "    def build_requirements(self):",
    "        self.tool_requires(\"cmake/3.25.3\")",
    "        self.tool_requires(\"ninja/1.11.1\")",
    "",
    "    def layout(self):",
    "        self.folders.build = \"build\"",
    "",
    "    def build(self):",
    "        cmake = CMake(self)",
    "        cmake.configure()",
    "        cmake.build()" ]

/-- The full text of src/conanfile.py (651 bytes; no trailing newline). -/
def conanfileContent : String := String.intercalate "\n" conanfileLines

/-- Number of lines of src/conanfile.py, counting the final unterminated
line. -/
def conanfileLineCount : Nat := conanfileLines.length

/-- Number of newline characters in src/conanfile.py. -/
def conanfileNewlineCount : Nat := conanfileContent.toList.count '\n'

/-- Modelled from the spec: the repository ships no sorting code, so the word
record type comes from spec section 3: "an immutable byte sequence (the
word)".  A word is its list of bytes. -/
abbrev Word := List Nat

/-- Modelled from the spec: byte-lexicographic order on words (spec section 3,
"Equality and ordering are byte-lexicographic"): compare bytes position by
position; a word that runs out first is a prefix of the other and orders
before it. -/
def wordLe : Word → Word → Bool
  | [], _ => true
  | _ :: _, [] => false
  | a :: as, b :: bs => if a < b then true else if b < a then false else wordLe as bs

/-- A word list is sorted for the boolean comparison `le` when every element
relates to every later element. -/
def SortedBy (le : Word → Word → Bool) (l : List Word) : Prop :=
  List.Pairwise (fun a b => le a b = true) l

/-- Modelled from the spec: the engine configuration recognized by the CLI
collaborator (spec section 6): the batch byte budget, the uncompressed block
size, the spill directory, and the descending-order flag. -/
structure SortConfig where
  memory_budget_bytes : Nat
  block_size_bytes : Nat := 65536
  temp_directory : String := "tmp"
  reverse : Bool := false
  deriving DecidableEq, Repr

/-- Modelled from the spec: the comparison rule the engine sorts by:
byte-lexicographic order, flipped when the `reverse` flag asks for
non-increasing output. -/
def engineOrder (cfg : SortConfig) : Word → Word → Bool :=
  if cfg.reverse then fun a b => wordLe b a else wordLe

/-- Modelled from the spec: batch accumulation (spec section 4.6,
`ACCUMULATING`): pull words into the current batch until the input is
exhausted or the batch's byte budget is reached; each started batch accepts
at least its first word.  `cur` holds the current batch in reverse,
`bytes` its byte size. -/
def makeBatchesAux (budget : Nat) (cur : List Word) (bytes : Nat) :
    List Word → List (List Word)
  | [] => if cur.isEmpty then [] else [cur.reverse]
  | w :: ws =>
    if cur.isEmpty then makeBatchesAux budget [w] w.length ws
    else if budget ≤ bytes then cur.reverse :: makeBatchesAux budget [w] w.length ws
    else makeBatchesAux budget (w :: cur) (bytes + w.length) ws

/-- Modelled from the spec: split the input stream into batches bounded by
the memory budget (spec sections 3 and 4.6). -/
def makeBatches (budget : Nat) (input : List Word) : List (List Word) :=
  makeBatchesAux budget [] 0 input

/-- Modelled from the spec: the Chunk Sorter (spec section 4.2) reorders an
in-memory batch ascending by the comparison rule; the algorithm is any
comparison sort, modelled here by insertion sort. -/
def chunkSort (le : Word → Word → Bool) (batch : List Word) : List Word :=
  List.insertionSort (fun a b => le a b = true) batch

/-- Modelled from the spec: one round of the K-Way Merger's minimum selection
(spec section 4.5): find the reader whose head word is minimal, ties broken
by reader insertion order (the earliest reader wins), and advance only that
reader.  Returns the emitted word and the advanced reader list, or `none`
when every reader is exhausted. -/
def selectMin (le : Word → Word → Bool) : List (List Word) → Option (Word × List (List Word))
  | [] => none
  | [] :: rest => (selectMin le rest).map (fun p => (p.1, [] :: p.2))
  | (w :: ws) :: rest =>
    match selectMin le rest with
    | none => some (w, ws :: rest)
    | some (v, rest') =>
      if le w v then some (w, ws :: rest) else some (v, (w :: ws) :: rest')

/-- Modelled from the spec: the K-Way Merger's loop (spec section 4.5):
repeatedly pop the minimum head and advance its reader until all readers are
exhausted.  The loop runs once per record; the fuel argument counts the
records still to emit. -/
def kWayMergeAux (le : Word → Word → Bool) : Nat → List (List Word) → List Word
  | 0, _ => []
  | fuel + 1, segs =>
    match selectMin le segs with
    | none => []
    | some (w, t) => w :: kWayMergeAux le fuel t

/-- Modelled from the spec: the K-Way Merger over a list of sorted segments
(spec section 4.5). -/
def kWayMerge (le : Word → Word → Bool) (segs : List (List Word)) : List Word :=
  kWayMergeAux le segs.flatten.length segs

/-- Modelled from the spec: the spill-and-merge part of the External Sort
Engine (spec section 4.6): no batch means no output; a single batch is
sorted and emitted directly (`DIRECT_EMIT`, no spill, no merge); otherwise
each batch is chunk-sorted into a spill segment and the K-Way Merger is
driven over all segments. -/
def externalSortSegs (le : Word → Word → Bool) : List (List Word) → List Word
  | [] => []
  | [b] => chunkSort le b
  | b₁ :: b₂ :: bs => kWayMerge le ((b₁ :: b₂ :: bs).map (chunkSort le))

/-- Modelled from the spec: the External Sort Engine's sorted output stream
(spec section 4.6): batch the input by the memory budget, then spill-sort
and merge. -/
def externalSort (cfg : SortConfig) (input : List Word) : List Word :=
  externalSortSegs (engineOrder cfg) (makeBatches cfg.memory_budget_bytes input)

/-- Modelled from the spec: the External Sort Engine's states
(spec section 4.6). -/
inductive EngineState where
  | ACCUMULATING
  | SPILLING
  | DIRECT_EMIT
  | MERGING
  | DONE
  deriving DecidableEq, Repr

/-- Modelled from the spec: the observable outcome of one engine run: the
emitted output, the number of spill segments created, the sequence of states
traversed, and the process exit code (spec sections 4.6 and 6). -/
structure EngineRun where
  output : List Word
  segments_created : Nat
  trace : List EngineState
  exit_code : Nat
  deriving DecidableEq, Repr

/-- Modelled from the spec: a fault-free engine run (spec section 4.6): empty
input goes straight from `ACCUMULATING` to `DONE` with no segment; a single
batch takes the `DIRECT_EMIT` fast path; otherwise the engine alternates
`ACCUMULATING` and `SPILLING` once per batch, then merges.  Success exits
with code zero (spec section 6). -/
def runEngine (cfg : SortConfig) (input : List Word) : EngineRun :=
  match makeBatches cfg.memory_budget_bytes input with
  | [] => ⟨[], 0, [.ACCUMULATING, .DONE], 0⟩
  | [b] => ⟨chunkSort (engineOrder cfg) b, 0, [.ACCUMULATING, .DIRECT_EMIT, .DONE], 0⟩
  | b₁ :: b₂ :: bs =>
    ⟨externalSortSegs (engineOrder cfg) (b₁ :: b₂ :: bs), (b₁ :: b₂ :: bs).length,
     ((b₁ :: b₂ :: bs).map fun _ => [EngineState.ACCUMULATING, EngineState.SPILLING]).flatten
       ++ [.MERGING, .DONE], 0⟩

/-- Modelled from the spec: the engine's fatal-error taxonomy
(spec section 7). -/
inductive SortError where
  | InputError
  | IOError
  | CodecError
  | ResourceExhaustedError
  deriving DecidableEq, Repr

/-- Modelled from the spec: fault injection for a run (spec sections 7
and 8): a malformed input source, a failed batch-buffer allocation, a
backing-storage write failure at a given segment, and a corrupted compressed
block detected while reading a given segment. -/
structure FaultModel where
  input_error : Bool := false
  alloc_error : Bool := false
  io_error_segment : Option Nat := none
  codec_error_segment : Option Nat := none
  deriving DecidableEq, Repr

/-- Modelled from the spec: a storage fault at segment `i` fires only when
segment `i` actually exists among the `seg_count` spill segments. -/
def faultFires (seg_count : Nat) : Option Nat → Bool
  | some i => decide (i < seg_count)
  | none => false

/-- Modelled from the spec: the observable outcome of a fallible engine run:
the result, the words actually written to the output destination, and the
spill segments left behind (spec section 7: cleanup is unconditional). -/
structure FallibleRun where
  result : Except SortError (List Word)
  destination_writes : List Word
  temp_segments_remaining : Nat
  deriving Repr

/-- Modelled from the spec: an engine run under fault injection
(spec section 7): a malformed source aborts before any spilling; a failed
batch allocation aborts; a single-batch input takes `DIRECT_EMIT` and never
touches backing storage, so storage faults cannot fire; otherwise a storage
or codec fault at an existing segment aborts the sort.  The destination is
written only when the complete output stream is constructed; every abort
leaves the destination untouched, and cleanup always removes all spill
segments. -/
def runEngineFallible (cfg : SortConfig) (input : List Word) (f : FaultModel) : FallibleRun :=
  if f.input_error then ⟨Except.error SortError.InputError, [], 0⟩
  else if f.alloc_error then ⟨Except.error SortError.ResourceExhaustedError, [], 0⟩
  else if (makeBatches cfg.memory_budget_bytes input).length ≤ 1 then
    ⟨Except.ok (externalSort cfg input), externalSort cfg input, 0⟩
  else if faultFires (makeBatches cfg.memory_budget_bytes input).length f.io_error_segment then
    ⟨Except.error SortError.IOError, [], 0⟩
  else if faultFires (makeBatches cfg.memory_budget_bytes input).length f.codec_error_segment then
    ⟨Except.error SortError.CodecError, [], 0⟩
  else ⟨Except.ok (externalSort cfg input), externalSort cfg input, 0⟩

/-- Concrete input used by the budget-independence witness: the byte strings
"pear", "apple", "apple", "banana" from the spec's section 8 scenario. -/
def witnessInput : List Word :=
  [[112, 101, 97, 114], [97, 112, 112, 108, 101], [97, 112, 112, 108, 101],
   [98, 97, 110, 97, 110, 97]]

end WordlistSort

namespace WordlistSort

theorem wordLe_total : ∀ a b : Word, (wordLe a b || wordLe b a) = true := by
  intro a
  induction a with
  | nil => intro b; simp [wordLe]
  | cons x xs ih =>
    intro b
    cases b with
    | nil => simp [wordLe]
    | cons y ys =>
      simp only [wordLe]
      rcases Nat.lt_trichotomy x y with h | h | h
      · simp [h]
      · subst h
        simpa [Nat.lt_irrefl] using ih ys
      · simp [h, Nat.lt_asymm h]

theorem wordLe_trans :
    ∀ a b c : Word, wordLe a b = true → wordLe b c = true → wordLe a c = true := by
  intro a
  induction a with
  | nil => intro b c _ _; rfl
  | cons x xs ih =>
    intro b c hab hbc
    cases b with
    | nil => simp [wordLe] at hab
    | cons y ys =>
      cases c with
      | nil => simp [wordLe] at hbc
      | cons z zs =>
        simp only [wordLe] at hab hbc ⊢
        rcases Nat.lt_trichotomy x y with hxy | hxy | hxy
        · rcases Nat.lt_trichotomy y z with hyz | hyz | hyz
          · simp [Nat.lt_trans hxy hyz]
          · subst hyz; simp [hxy]
          · simp [Nat.lt_asymm hyz, hyz] at hbc
        · subst hxy
          rcases Nat.lt_trichotomy x z with hxz | hxz | hxz
          · simp [hxz]
          · subst hxz
            simp only [Nat.lt_irrefl, if_false] at hab hbc ⊢
            exact ih ys zs hab hbc
          · simp [Nat.lt_asymm hxz, hxz] at hbc
        · simp [Nat.lt_asymm hxy, hxy] at hab

theorem wordLe_antisymm :
    ∀ a b : Word, wordLe a b = true → wordLe b a = true → a = b := by
  intro a
  induction a with
  | nil =>
    intro b hab hba
    cases b with
    | nil => rfl
    | cons y ys => simp [wordLe] at hba
  | cons x xs ih =>
    intro b hab hba
    cases b with
    | nil => simp [wordLe] at hab
    | cons y ys =>
      simp only [wordLe] at hab hba
      rcases Nat.lt_trichotomy x y with h | h | h
      · simp [Nat.lt_asymm h, h] at hba
      · subst h
        simp only [Nat.lt_irrefl, if_false] at hab hba
        exact congrArg (List.cons x) (ih ys hab hba)
      · simp [Nat.lt_asymm h, h] at hab

theorem engineOrder_total (cfg : SortConfig) (a b : Word) :
    (engineOrder cfg a b || engineOrder cfg b a) = true := by
  cases hc : cfg.reverse <;> simp only [engineOrder, hc, if_true, if_false, Bool.false_eq_true]
  · exact wordLe_total a b
  · exact wordLe_total b a

theorem engineOrder_trans (cfg : SortConfig) (a b c : Word)
    (h₁ : engineOrder cfg a b = true) (h₂ : engineOrder cfg b c = true) :
    engineOrder cfg a c = true := by
  revert h₁ h₂
  cases hc : cfg.reverse <;> simp only [engineOrder, hc, if_true, if_false, Bool.false_eq_true]
  · exact wordLe_trans a b c
  · intro h₁ h₂
    exact wordLe_trans c b a h₂ h₁

theorem engineOrder_antisymm (cfg : SortConfig) (a b : Word)
    (h₁ : engineOrder cfg a b = true) (h₂ : engineOrder cfg b a = true) : a = b := by
  revert h₁ h₂
  cases hc : cfg.reverse <;> simp only [engineOrder, hc, if_true, if_false, Bool.false_eq_true]
  · exact wordLe_antisymm a b
  · intro h₁ h₂
    exact wordLe_antisymm a b h₂ h₁


theorem chunkSort_perm (le : Word → Word → Bool) (l : List Word) :
    (chunkSort le l).Perm l :=
  List.perm_insertionSort _ l

theorem chunkSort_sorted (le : Word → Word → Bool)
    (htot : ∀ a b, (le a b || le b a) = true)
    (htrans : ∀ a b c, le a b = true → le b c = true → le a c = true)
    (l : List Word) : SortedBy le (chunkSort le l) := by
  letI : IsTotal Word (fun a b => le a b = true) :=
    ⟨fun a b => by simpa using Bool.or_eq_true_iff.mp (htot a b)⟩
  letI : IsTrans Word (fun a b => le a b = true) :=
    ⟨fun a b c hab hbc => htrans a b c hab hbc⟩
  exact List.sorted_insertionSort _ l

theorem makeBatchesAux_flatten (budget : Nat) :
    ∀ (l : List Word) (cur : List Word) (bytes : Nat),
      (makeBatchesAux budget cur bytes l).flatten = cur.reverse ++ l := by
  intro l
  induction l with
  | nil =>
    intro cur bytes
    cases cur with
    | nil => simp [makeBatchesAux]
    | cons c cs => simp [makeBatchesAux]
  | cons w ws ih =>
    intro cur bytes
    cases cur with
    | nil => simp [makeBatchesAux, ih]
    | cons c cs =>
      by_cases hb : budget ≤ bytes
      · simp [makeBatchesAux, hb, ih]
      · simp [makeBatchesAux, hb, ih]

theorem makeBatches_flatten (budget : Nat) (input : List Word) :
    (makeBatches budget input).flatten = input := by
  simp [makeBatches, makeBatchesAux_flatten]

theorem selectMin_eq_none (le : Word → Word → Bool) :
    ∀ segs : List (List Word), selectMin le segs = none → segs.flatten = [] := by
  intro segs
  induction segs with
  | nil => intro _; rfl
  | cons s rest ih =>
    intro h
    cases s with
    | nil =>
      simp only [selectMin, Option.map_eq_none'] at h
      simpa using ih h
    | cons x xs =>
      simp only [selectMin] at h
      cases hr : selectMin le rest with
      | none => rw [hr] at h; simp at h
      | some p =>
        rw [hr] at h
        obtain ⟨v, rest'⟩ := p
        by_cases hle : le x v <;> simp [hle] at h

theorem selectMin_perm (le : Word → Word → Bool) :
    ∀ (segs : List (List Word)) (w : Word) (t : List (List Word)),
      selectMin le segs = some (w, t) → segs.flatten.Perm (w :: t.flatten) := by
  intro segs
  induction segs with
  | nil => intro w t h; simp [selectMin] at h
  | cons s rest ih =>
    intro w t h
    cases s with
    | nil =>
      cases hr : selectMin le rest with
      | none => simp [selectMin, hr] at h
      | some p =>
        obtain ⟨v, rest'⟩ := p
        simp only [selectMin, hr, Option.map_some', Option.some.injEq, Prod.mk.injEq] at h
        obtain ⟨rfl, rfl⟩ := h
        simpa using ih v rest' hr
    | cons x xs =>
      cases hr : selectMin le rest with
      | none =>
        simp only [selectMin, hr, Option.some.injEq, Prod.mk.injEq] at h
        obtain ⟨rfl, rfl⟩ := h
        exact List.Perm.refl _
      | some p =>
        obtain ⟨v, rest'⟩ := p
        simp only [selectMin, hr] at h
        by_cases hle : le x v
        · rw [if_pos hle] at h
          simp only [Option.some.injEq, Prod.mk.injEq] at h
          obtain ⟨rfl, rfl⟩ := h
          exact List.Perm.refl _
        · rw [if_neg hle] at h
          simp only [Option.some.injEq, Prod.mk.injEq] at h
          obtain ⟨rfl, rfl⟩ := h
          have hperm := ih v rest' hr
          simp only [List.flatten_cons]
          exact (List.Perm.append_left (x :: xs) hperm).trans List.perm_middle


theorem selectMin_sorted (le : Word → Word → Bool) :
    ∀ (segs : List (List Word)) (w : Word) (t : List (List Word)),
      (∀ s ∈ segs, SortedBy le s) → selectMin le segs = some (w, t) →
      ∀ s ∈ t, SortedBy le s := by
  intro segs
  induction segs with
  | nil => intro w t _ h; simp [selectMin] at h
  | cons s rest ih =>
    intro w t hsort h
    have hrest : ∀ s ∈ rest, SortedBy le s := fun s hs => hsort s (List.mem_cons_of_mem _ hs)
    cases s with
    | nil =>
      cases hr : selectMin le rest with
      | none => simp [selectMin, hr] at h
      | some p =>
        obtain ⟨v, rest'⟩ := p
        simp only [selectMin, hr, Option.map_some', Option.some.injEq, Prod.mk.injEq] at h
        obtain ⟨rfl, rfl⟩ := h
        intro s hs
        rcases List.mem_cons.mp hs with rfl | hs
        · exact List.Pairwise.nil
        · exact ih v rest' hrest hr s hs
    | cons x xs =>
      have hx : SortedBy le (x :: xs) := hsort _ (List.mem_cons_self _ _)
      cases hr : selectMin le rest with
      | none =>
        simp only [selectMin, hr, Option.some.injEq, Prod.mk.injEq] at h
        obtain ⟨rfl, rfl⟩ := h
        intro s hs
        rcases List.mem_cons.mp hs with rfl | hs
        · exact hx.of_cons
        · exact hrest s hs
      | some p =>
        obtain ⟨v, rest'⟩ := p
        simp only [selectMin, hr] at h
        by_cases hle : le x v
        · rw [if_pos hle] at h
          simp only [Option.some.injEq, Prod.mk.injEq] at h
          obtain ⟨rfl, rfl⟩ := h
          intro s hs
          rcases List.mem_cons.mp hs with rfl | hs
          · exact hx.of_cons
          · exact hrest s hs
        · rw [if_neg hle] at h
          simp only [Option.some.injEq, Prod.mk.injEq] at h
          obtain ⟨rfl, rfl⟩ := h
          intro s hs
          rcases List.mem_cons.mp hs with rfl | hs
          · exact hx
          · exact ih v rest' hrest hr s hs

theorem selectMin_le_all (le : Word → Word → Bool)
    (htot : ∀ a b, (le a b || le b a) = true)
    (htrans : ∀ a b c, le a b = true → le b c = true → le a c = true) :
    ∀ (segs : List (List Word)) (w : Word) (t : List (List Word)),
      (∀ s ∈ segs, SortedBy le s) → selectMin le segs = some (w, t) →
      ∀ x ∈ t.flatten, le w x = true := by
  intro segs
  induction segs with
  | nil => intro w t _ h; simp [selectMin] at h
  | cons s rest ih =>
    intro w t hsort h
    have hrest : ∀ s ∈ rest, SortedBy le s := fun s hs => hsort s (List.mem_cons_of_mem _ hs)
    cases s with
    | nil =>
      cases hr : selectMin le rest with
      | none => simp [selectMin, hr] at h
      | some p =>
        obtain ⟨v, rest'⟩ := p
        simp only [selectMin, hr, Option.map_some', Option.some.injEq, Prod.mk.injEq] at h
        obtain ⟨rfl, rfl⟩ := h
        intro x hx
        simp only [List.flatten_cons, List.nil_append] at hx
        exact ih v rest' hrest hr x hx
    | cons y ys =>
      have hy : SortedBy le (y :: ys) := hsort _ (List.mem_cons_self _ _)
      have hy' : ∀ x ∈ ys, le y x = true := (List.pairwise_cons.mp hy).1
      cases hr : selectMin le rest with
      | none =>
        simp only [selectMin, hr, Option.some.injEq, Prod.mk.injEq] at h
        obtain ⟨rfl, rfl⟩ := h
        intro x hx
        simp only [List.flatten_cons, selectMin_eq_none le rest hr, List.append_nil] at hx
        exact hy' x hx
      | some p =>
        obtain ⟨v, rest'⟩ := p
        have hvrest := ih v rest' hrest hr
        have hperm := selectMin_perm le rest v rest' hr
        simp only [selectMin, hr] at h
        by_cases hle : le y v
        · rw [if_pos hle] at h
          simp only [Option.some.injEq, Prod.mk.injEq] at h
          obtain ⟨rfl, rfl⟩ := h
          intro x hx
          simp only [List.flatten_cons] at hx
          rcases List.mem_append.mp hx with hx | hx
          · exact hy' x hx
          · rcases List.mem_cons.mp (hperm.mem_iff.mp hx) with rfl | hx
            · exact hle
            · exact htrans _ _ _ hle (hvrest x hx)
        · rw [if_neg hle] at h
          simp only [Option.some.injEq, Prod.mk.injEq] at h
          obtain ⟨rfl, rfl⟩ := h
          have hvy : le v y = true := by
            have := htot y v
            rcases Bool.or_eq_true_iff.mp this with h' | h'
            · exact absurd h' hle
            · exact h'
          intro x hx
          simp only [List.flatten_cons] at hx
          rcases List.mem_append.mp hx with hx | hx
          · rcases List.mem_cons.mp hx with rfl | hx
            · exact hvy
            · exact htrans _ _ _ hvy (hy' x hx)
          · exact hvrest x hx


theorem kWayMergeAux_perm (le : Word → Word → Bool) :
    ∀ (fuel : Nat) (segs : List (List Word)), segs.flatten.length = fuel →
      (kWayMergeAux le fuel segs).Perm segs.flatten := by
  intro fuel
  induction fuel with
  | zero =>
    intro segs h
    rw [List.eq_nil_of_length_eq_zero h]
    exact List.Perm.refl _
  | succ n ih =>
    intro segs h
    cases hs : selectMin le segs with
    | none =>
      rw [selectMin_eq_none le segs hs] at h
      simp at h
    | some p =>
      obtain ⟨w, t⟩ := p
      have hperm := selectMin_perm le segs w t hs
      have hlen : t.flatten.length = n := by
        have := hperm.length_eq
        simp only [List.length_cons] at this
        omega
      simp only [kWayMergeAux, hs]
      exact (List.Perm.cons w (ih t hlen)).trans hperm.symm

theorem kWayMergeAux_sorted (le : Word → Word → Bool)
    (htot : ∀ a b, (le a b || le b a) = true)
    (htrans : ∀ a b c, le a b = true → le b c = true → le a c = true) :
    ∀ (fuel : Nat) (segs : List (List Word)), segs.flatten.length = fuel →
      (∀ s ∈ segs, SortedBy le s) → SortedBy le (kWayMergeAux le fuel segs) := by
  intro fuel
  induction fuel with
  | zero => intro segs _ _; exact List.Pairwise.nil
  | succ n ih =>
    intro segs hlen hsort
    cases hs : selectMin le segs with
    | none =>
      simp only [kWayMergeAux, hs]
      exact List.Pairwise.nil
    | some p =>
      obtain ⟨w, t⟩ := p
      have hperm := selectMin_perm le segs w t hs
      have hlen' : t.flatten.length = n := by
        have := hperm.length_eq
        simp only [List.length_cons] at this
        omega
      have hauxperm := kWayMergeAux_perm le n t hlen'
      have hmin := selectMin_le_all le htot htrans segs w t hsort hs
      simp only [kWayMergeAux, hs]
      refine List.pairwise_cons.mpr ⟨?_, ih t hlen' (selectMin_sorted le segs w t hsort hs)⟩
      intro x hx
      exact hmin x (hauxperm.mem_iff.mp hx)

theorem kWayMerge_perm (le : Word → Word → Bool) (segs : List (List Word)) :
    (kWayMerge le segs).Perm segs.flatten :=
  kWayMergeAux_perm le _ segs rfl

theorem kWayMerge_sorted (le : Word → Word → Bool)
    (htot : ∀ a b, (le a b || le b a) = true)
    (htrans : ∀ a b c, le a b = true → le b c = true → le a c = true)
    (segs : List (List Word)) (hsort : ∀ s ∈ segs, SortedBy le s) :
    SortedBy le (kWayMerge le segs) :=
  kWayMergeAux_sorted le htot htrans _ segs rfl hsort

theorem flatten_map_chunkSort_perm (le : Word → Word → Bool) :
    ∀ bs : List (List Word), ((bs.map (chunkSort le)).flatten).Perm bs.flatten
  | [] => List.Perm.refl _
  | b :: bs => by
    simp only [List.map_cons, List.flatten_cons]
    exact (chunkSort_perm le b).append (flatten_map_chunkSort_perm le bs)

theorem externalSortSegs_perm (le : Word → Word → Bool) :
    ∀ batches : List (List Word), (externalSortSegs le batches).Perm batches.flatten
  | [] => List.Perm.refl _
  | [b] => by simpa [externalSortSegs] using chunkSort_perm le b
  | b₁ :: b₂ :: bs =>
    (kWayMerge_perm le _).trans (flatten_map_chunkSort_perm le (b₁ :: b₂ :: bs))

theorem externalSortSegs_sorted (le : Word → Word → Bool)
    (htot : ∀ a b, (le a b || le b a) = true)
    (htrans : ∀ a b c, le a b = true → le b c = true → le a c = true) :
    ∀ batches : List (List Word), SortedBy le (externalSortSegs le batches)
  | [] => List.Pairwise.nil
  | [b] => chunkSort_sorted le htot htrans b
  | b₁ :: b₂ :: bs => by
    apply kWayMerge_sorted le htot htrans
    intro s hs
    simp only [List.mem_map] at hs
    obtain ⟨b, _, rfl⟩ := hs
    exact chunkSort_sorted le htot htrans b

theorem externalSort_perm (cfg : SortConfig) (input : List Word) :
    (externalSort cfg input).Perm input := by
  have h := externalSortSegs_perm (engineOrder cfg) (makeBatches cfg.memory_budget_bytes input)
  rwa [makeBatches_flatten] at h

theorem externalSort_sorted (cfg : SortConfig) (input : List Word) :
    SortedBy (engineOrder cfg) (externalSort cfg input) :=
  externalSortSegs_sorted _ (engineOrder_total cfg) (engineOrder_trans cfg) _

theorem sortedBy_perm_eq (le : Word → Word → Bool)
    (hanti : ∀ a b, le a b = true → le b a = true → a = b)
    {l₁ l₂ : List Word} (hp : l₁.Perm l₂)
    (h₁ : SortedBy le l₁) (h₂ : SortedBy le l₂) : l₁ = l₂ := by
  letI : IsAntisymm Word (fun a b => le a b = true) := ⟨hanti⟩
  exact List.eq_of_perm_of_sorted hp h₁ h₂


/-- Claim C1: the manifest declares exactly two runtime requirements, one a
compression library (lz4) and one a CLI-argument-parsing library (cli11),
and every evaluation of `requirements` adds exactly these. -/
theorem claim_C1_requirements_two_libraries :
    declaredRequirements.length = 2 ∧
    declaredRequirements.countP isCompressionLibraryRef = 1 ∧
    declaredRequirements.countP isCliParsingLibraryRef = 1 ∧
    ∀ st : ConanFileState,
      (WordSorterConan.requirements st).requires_list
        = st.requires_list ++ declaredRequirements := by
  refine ⟨by decide, by decide, by decide, ?_⟩
  intro st
  simp [WordSorterConan.requirements, runBody, WordSorterConan.requirementsBody,
    execStmt, requires, declaredRequirements]

/-- Claim C2: the repository's only source file is the manifest; it defines
the single class `WordSorterConan` with exactly the four manifest methods;
no statement of any method body reads, sorts, merges, compresses, or emits
word data, and no method evaluation changes the emitted word output. -/
theorem claim_C2_no_executable_sorting_logic :
    sourceFiles = ["conanfile.py"] ∧
    conanfileClasses = ["WordSorterConan"] ∧
    WordSorterConan.methods.map Prod.fst
      = ["requirements", "build_requirements", "layout", "build"] ∧
    (WordSorterConan.methods.all fun m => m.2.all fun s => !touchesWordData s) = true ∧
    ∀ st : ConanFileState,
      (WordSorterConan.requirements st).output_words = st.output_words ∧
      (WordSorterConan.build_requirements st).output_words = st.output_words ∧
      (WordSorterConan.layout st).output_words = st.output_words ∧
      (WordSorterConan.build st).output_words = st.output_words := by
  refine ⟨rfl, rfl, rfl, by decide, ?_⟩
  intro st
  refine ⟨?_, ?_, ?_, ?_⟩ <;>
    simp [WordSorterConan.requirements, WordSorterConan.build_requirements,
      WordSorterConan.layout, WordSorterConan.build, runBody,
      WordSorterConan.requirementsBody, WordSorterConan.build_requirementsBody,
      WordSorterConan.layoutBody, WordSorterConan.buildBody, execStmt, requires,
      tool_requires]

/-- Claim C3 (spec-modelled): for every configuration and input word list,
the external sort engine's output is a permutation of the input sorted by
the engine order, which is byte-lexicographic, flipped to non-increasing
when the `reverse` flag is set. -/
theorem claim_C3_sorted_permutation (cfg : SortConfig) (input : List Word) :
    (externalSort cfg input).Perm input ∧
    SortedBy (engineOrder cfg) (externalSort cfg input) ∧
    engineOrder cfg = (if cfg.reverse then fun a b => wordLe b a else wordLe) :=
  ⟨externalSort_perm cfg input, externalSort_sorted cfg input, rfl⟩

/-- Claim C4 (spec-modelled): sorting the same input under two memory
budgets B1 < B2, all other configuration equal, produces identical output
sequences. -/
theorem claim_C4_budget_independence (cfg : SortConfig) (input : List Word)
    (B1 B2 : Nat) (hB : B1 < B2) :
    externalSort { cfg with memory_budget_bytes := B1 } input
      = externalSort { cfg with memory_budget_bytes := B2 } input := by
  clear hB
  have h1 := externalSort_perm { cfg with memory_budget_bytes := B1 } input
  have h2 := externalSort_perm { cfg with memory_budget_bytes := B2 } input
  have s1 := externalSort_sorted { cfg with memory_budget_bytes := B1 } input
  have s2 := externalSort_sorted { cfg with memory_budget_bytes := B2 } input
  exact sortedBy_perm_eq _ (engineOrder_antisymm { cfg with memory_budget_bytes := B1 })
    (h1.trans h2.symm) s1 s2

/-- Witness for claim C4: concrete budgets 1 < 2 on the spec's section 8
scenario input give identical outputs. -/
theorem claim_C4_budget_independence_witness :
    (1 : Nat) < 2 ∧
    externalSort { memory_budget_bytes := 1 } witnessInput
      = externalSort { memory_budget_bytes := 2 } witnessInput :=
  ⟨by decide,
    claim_C4_budget_independence { memory_budget_bytes := 1 } witnessInput 1 2 (by decide)⟩

/-- Claim C5 (spec-modelled): under every fault injection the engine either
returns the complete correctly-ordered output, which is exactly what reaches
the destination, or fails with a fatal error having written nothing to the
destination, so there is no partial-success outcome; spill-segment cleanup
is unconditional. -/
theorem claim_C5_all_or_nothing (cfg : SortConfig) (input : List Word) (f : FaultModel) :
    (runEngineFallible cfg input f).temp_segments_remaining = 0 ∧
    ((∃ out, (runEngineFallible cfg input f).result = Except.ok out ∧
        (runEngineFallible cfg input f).destination_writes = out ∧
        out.Perm input ∧ SortedBy (engineOrder cfg) out) ∨
      (∃ e, (runEngineFallible cfg input f).result = Except.error e ∧
        (runEngineFallible cfg input f).destination_writes = [])) := by
  unfold runEngineFallible
  split_ifs <;>
    first
      | exact ⟨rfl, Or.inr ⟨_, rfl, rfl⟩⟩
      | exact ⟨rfl, Or.inl ⟨externalSort cfg input, rfl, rfl,
          externalSort_perm cfg input, externalSort_sorted cfg input⟩⟩

/-- Claim C6 (spec-modelled): on empty input the engine goes straight from
its initial state to `DONE`, emits nothing, creates no spill segment, and
exits with code zero. -/
theorem claim_C6_empty_input (cfg : SortConfig) :
    (runEngine cfg []).output = [] ∧
    (runEngine cfg []).segments_created = 0 ∧
    (runEngine cfg []).trace = [EngineState.ACCUMULATING, EngineState.DONE] ∧
    (runEngine cfg []).exit_code = 0 :=
  ⟨rfl, rfl, rfl, rfl⟩

/-- Claim C7 counterexample: src/conanfile.py is not exactly 23 lines long:
it has 24 lines, the last of which is unterminated. -/
theorem claim_C7_line_count_counterexample :
    conanfileLineCount = 24 ∧ conanfileLineCount ≠ 23 := by
  exact ⟨rfl, by decide⟩

set_option maxRecDepth 8000 in
/-- Claim C7 amended: src/conanfile.py is 24 lines long, its final line not
newline-terminated, so it contains 23 newline characters. -/
theorem claim_C7_line_count_amended :
    conanfileLineCount = 24 ∧ conanfileNewlineCount = 23 :=
  ⟨rfl, by decide⟩

/-- Claim C8 counterexample: the manifest's `name` attribute is not the
string "word sorter". -/
theorem claim_C8_name_counterexample : WordSorterConan.name ≠ "word sorter" := by
  decide

/-- Claim C8 amended: the manifest's `name` attribute equals the string
"word_sorter" (underscore, not space). -/
theorem claim_C8_name_amended : WordSorterConan.name = "word_sorter" := rfl

/-- Claim C9: every evaluation of `requirements` declares exactly the pinned
dependencies lz4/1.9.4 and cli11/2.4.2, in that order, and declares no tool
requirement. -/
theorem claim_C9_pinned_requirements (st : ConanFileState) :
    (WordSorterConan.requirements st).requires_list
      = st.requires_list ++ ["lz4/1.9.4", "cli11/2.4.2"] ∧
    (WordSorterConan.requirements st).tool_requires_list = st.tool_requires_list := by
  constructor <;>
    simp [WordSorterConan.requirements, runBody, WordSorterConan.requirementsBody,
      execStmt, requires]

/-- Claim C10: every evaluation of `build_requirements` declares exactly the
pinned build tools cmake/3.25.3 and ninja/1.11.1, in that order, and
declares no runtime requirement. -/
theorem claim_C10_pinned_build_requirements (st : ConanFileState) :
    (WordSorterConan.build_requirements st).tool_requires_list
      = st.tool_requires_list ++ ["cmake/3.25.3", "ninja/1.11.1"] ∧
    (WordSorterConan.build_requirements st).requires_list = st.requires_list := by
  constructor <;>
    simp [WordSorterConan.build_requirements, runBody, WordSorterConan.build_requirementsBody,
      execStmt, tool_requires]

end WordlistSort
